import Mathlib

/-!
# Constant Table Generator — verification

A shallow embedding of `gen_input_consts.py`, the constant-generation
script of the swarm-website-visualization repository, together with
theorems settling the specification's claims about it.

The script reads a line-oriented directive file, skips blank lines
(exactly `"\n"`), strips trailing newlines, dispatches each remaining
line by an ordered prefix match (mode switches, affix/type directives),
and appends one `pub const ...;` declaration per data line to an output
buffer initialised with two fixed suppression header lines.

Python-specific behaviour embedded faithfully:
* `line.split(',')` splits on **every** comma (`splitChars`);
* `line[0:n]` slices by code point (`pySlice` / `pyDrop`);
* `line[-1]` and `parts[1]` raise `IndexError` on out-of-range access,
  modelled by `Option` (`namedEmit` returns `none`);
* `line.rstrip('\n')` drops all trailing newline characters
  (`rstripNewlines`).
-/

namespace SwarmGen

/-- Python `str.split(sep)` for a one-character separator, on the
character list of the string: `"".split(',') = [""]`,
`"a,b".split(',') = ["a","b"]`, `"a,".split(',') = ["a",""]`. -/
def splitChars (sep : Char) : List Char → List (List Char)
  | [] => [[]]
  | c :: cs =>
    if c = sep then [] :: splitChars sep cs
    else
      match splitChars sep cs with
      | [] => [[c]]
      | p :: ps => (c :: p) :: ps

/-- Python slice `line[0:n]` (by code point). -/
def pySlice (line : String) (n : Nat) : String := String.mk (line.toList.take n)

/-- Python slice `line[n:]` (by code point). -/
def pyDrop (line : String) (n : Nat) : String := String.mk (line.toList.drop n)

/-- The generator's mutable state: the mode flag `regularConsts`, the four
affixes, the declared type string (`_type` in the source) and the output
buffer accumulated so far. -/
structure GenState where
  regularConsts : Bool
  namePre : String
  namePost : String
  valuePre : String
  valuePost : String
  typeStr : String
  output : String
deriving DecidableEq, Repr

/-- The state before any line is processed: Regular mode, all affixes and
the type empty, output initialised with the two fixed suppression header
lines. -/
def initState : GenState :=
  { regularConsts := true
    namePre := ""
    namePost := ""
    valuePre := ""
    valuePost := ""
    typeStr := ""
    output := "#![allow(dead_code)]\n#![allow(non_upper_case_globals)]\n" }

/-- The two fixed suppression header lines the output buffer starts with. -/
def header : String := "#![allow(dead_code)]\n#![allow(non_upper_case_globals)]\n"

/-- The `fmt` function of the source: one declaration line from a name and
a value, applying the current affixes and declared type. -/
def fmt (s : GenState) (name value : String) : String :=
  "pub const " ++ (s.namePre ++ name ++ s.namePost) ++ ": " ++ s.typeStr ++
    " = " ++ (s.valuePre ++ value ++ s.valuePost) ++ ";\n"

/-- The `parts` list of the Named-mode branch: `[line.split(',')[0], ","]`
when the line ends with a comma, `line.split(',')` otherwise. -/
def namedParts (line : String) : List (List Char) :=
  if line.toList.getLast? = some ',' then
    [(splitChars ',' line.toList).headD [], [',']]
  else splitChars ',' line.toList

/-- The Named-mode data branch of the main loop.  `line[-1]` on an empty
line and `parts[1]` on a one-element split both raise `IndexError` in
Python; both are modelled by `none`. -/
def namedEmit (s : GenState) (line : String) : Option GenState :=
  if line = "" then none
  else
    match (namedParts line)[1]? with
    | some v =>
      some { s with output :=
        s.output ++ fmt s (String.mk ((namedParts line).headD [])) (String.mk v) }
    | none => none

/-- One iteration of the main loop: the ordered directive dispatch of the
source, falling through to the data-line branches. -/
def step (s : GenState) (line : String) : Option GenState :=
  if line = "Regular:" then some { s with regularConsts := true }
  else if line = "Named:" then some { s with regularConsts := false }
  else if pySlice line 11 = "NamePrefix:" then some { s with namePre := pyDrop line 11 }
  else if pySlice line 12 = "NamePostfix:" then some { s with namePost := pyDrop line 12 }
  else if pySlice line 12 = "ValuePrefix:" then some { s with valuePre := pyDrop line 12 }
  else if pySlice line 13 = "ValuePostfix:" then some { s with valuePost := pyDrop line 13 }
  else if pySlice line 5 = "Type:" then some { s with typeStr := pyDrop line 5 }
  else if s.regularConsts then some { s with output := s.output ++ fmt s line line }
  else namedEmit s line

/-- The main loop over the filtered lines. -/
def processLines : GenState → List String → Option GenState
  | s, [] => some s
  | s, l :: ls =>
    match step s l with
    | some s₂ => processLines s₂ ls
    | none => none

/-- Python `line.rstrip('\n')`: drop every trailing newline character. -/
def rstripNewlines (line : String) : String :=
  String.mk ((line.toList.reverse.dropWhile (fun c => c = '\n')).reverse)

/-- The input-reading loop: keep every raw line other than exactly `"\n"`,
stripped of its trailing newline. -/
def filterLines (raw : List String) : List String :=
  (raw.filter (fun l => l != "\n")).map rstripNewlines

/-- The whole generator on the raw lines of the input file (as Python's
`readlines` yields them): the final output buffer, or `none` when the run
raises. -/
def run (raw : List String) : Option String :=
  (processLines initState (filterLines raw)).map GenState.output

/-! ## Spec-side vocabulary

Definitions following the specification's words, used to state the claims
and compare them with the code's behaviour. -/

/-- A line that matches one of the seven directive forms, in the spec's
terms; every other non-blank line is a data line. -/
def IsDirective (line : String) : Prop :=
  line = "Regular:" ∨ line = "Named:" ∨
    pySlice line 11 = "NamePrefix:" ∨ pySlice line 12 = "NamePostfix:" ∨
    pySlice line 12 = "ValuePrefix:" ∨ pySlice line 13 = "ValuePostfix:" ∨
    pySlice line 5 = "Type:"

instance : DecidablePred IsDirective := fun line => by
  unfold IsDirective
  infer_instance

/-- The text of the line before its first comma (the whole line when it
has none). -/
def beforeComma (line : String) : String :=
  String.mk (line.toList.takeWhile (fun c => c != ','))

/-- The entire text of the line after its first comma. -/
def afterComma (line : String) : String :=
  String.mk ((line.toList.dropWhile (fun c => c != ',')).tail)

/-- The text of the line strictly between its first and second commas. -/
def betweenCommas (line : String) : String :=
  String.mk (((line.toList.dropWhile (fun c => c != ',')).tail).takeWhile (fun c => c != ','))

/-- The classification of a non-blank line, per the spec's priority list. -/
inductive LineClass where
  | setRegular
  | setNamed
  | setNamePre (v : String)
  | setNamePost (v : String)
  | setValuePre (v : String)
  | setValuePost (v : String)
  | setType (v : String)
  | dataLine (line : String)
deriving DecidableEq, Repr

/-- The spec's directive recognition: each non-blank line is interpreted
by prefix match, in this priority; anything else is a data line. -/
def classifySpec (line : String) : LineClass :=
  if line = "Regular:" then .setRegular
  else if line = "Named:" then .setNamed
  else if pySlice line 11 = "NamePrefix:" then .setNamePre (pyDrop line 11)
  else if pySlice line 12 = "NamePostfix:" then .setNamePost (pyDrop line 12)
  else if pySlice line 12 = "ValuePrefix:" then .setValuePre (pyDrop line 12)
  else if pySlice line 13 = "ValuePostfix:" then .setValuePost (pyDrop line 13)
  else if pySlice line 5 = "Type:" then .setType (pyDrop line 5)
  else .dataLine line

/-- Interpreting one classified line: directives mutate exactly their
field; a data line is resolved under the current mode and emitted. -/
def applyClass (s : GenState) : LineClass → Option GenState
  | .setRegular => some { s with regularConsts := true }
  | .setNamed => some { s with regularConsts := false }
  | .setNamePre v => some { s with namePre := v }
  | .setNamePost v => some { s with namePost := v }
  | .setValuePre v => some { s with valuePre := v }
  | .setValuePost v => some { s with valuePost := v }
  | .setType v => some { s with typeStr := v }
  | .dataLine l =>
    if s.regularConsts then some { s with output := s.output ++ fmt s l l }
    else namedEmit s l

/-- Concatenation of a list of emitted declaration strings. -/
def joinAll : List String → String
  | [] => ""
  | d :: ds => d ++ joinAll ds

/-- The number of data lines (non-directive lines) among the filtered
lines; data-line-hood does not depend on the generator state. -/
def dataCount (ls : List String) : Nat :=
  ls.countP (fun l => decide (¬ IsDirective l))

/-- The §6 example input of the spec, as raw `readlines` output. -/
def exampleRaw : List String :=
  ["Regular:\n", "FOO\n", "BAR\n", "\n", "Named:\n", "NamePrefix:PFX_\n",
   "Type:u32\n", "ValuePrefix:\n", "ValuePostfix:\n", "BAZ,42\n", "QUX,\n"]

/-! ## Helper lemmas on `splitChars` -/

lemma splitChars_ne_nil (sep : Char) (cs : List Char) : splitChars sep cs ≠ [] := by
  cases cs with
  | nil => simp [splitChars]
  | cons c cs =>
    unfold splitChars
    by_cases h : c = sep
    · simp [h]
    · simp only [if_neg h]
      cases splitChars sep cs <;> simp

lemma splitChars_headD (sep : Char) (cs : List Char) :
    (splitChars sep cs).headD [] = cs.takeWhile (fun c => c != sep) := by
  induction cs with
  | nil => rfl
  | cons c cs ih =>
    unfold splitChars
    by_cases h : c = sep
    · simp [h]
    · rcases hs : splitChars sep cs with _ | ⟨p, ps⟩
      · exact absurd hs (splitChars_ne_nil sep cs)
      · rw [hs] at ih
        simp only [List.headD_cons] at ih
        simp [if_neg h, List.takeWhile_cons, h, ih]

lemma splitChars_of_not_mem (sep : Char) (cs : List Char) (h : sep ∉ cs) :
    splitChars sep cs = [cs] := by
  induction cs with
  | nil => rfl
  | cons c cs ih =>
    have hc : ¬ c = sep := fun e => h (List.mem_cons.mpr (Or.inl e.symm))
    have hcs : sep ∉ cs := fun m => h (List.mem_cons_of_mem c m)
    unfold splitChars
    rw [if_neg hc, ih hcs]

lemma splitChars_append (sep : Char) (a b : List Char) (h : sep ∉ a) :
    splitChars sep (a ++ sep :: b) = a :: splitChars sep b := by
  induction a with
  | nil =>
    show splitChars sep (sep :: b) = [] :: splitChars sep b
    simp [splitChars]
  | cons c a ih =>
    have hc : ¬ c = sep := fun e => h (List.mem_cons.mpr (Or.inl e.symm))
    have ha : sep ∉ a := fun m => h (List.mem_cons_of_mem c m)
    show splitChars sep (c :: (a ++ sep :: b)) = (c :: a) :: splitChars sep b
    simp [splitChars, hc, ih ha]

/-! ## Decomposing a list at its first separator -/

lemma dropWhile_eq_cons_of_mem (sep : Char) (cs : List Char) (h : sep ∈ cs) :
    cs.dropWhile (fun c => c != sep) = sep :: (cs.dropWhile (fun c => c != sep)).tail := by
  induction cs with
  | nil => cases h
  | cons c cs ih =>
    by_cases hc : c = sep
    · subst hc
      simp [List.dropWhile_cons]
    · have hmem : sep ∈ cs := by
        rcases List.mem_cons.mp h with e | m
        · exact absurd e.symm hc
        · exact m
      have hne : (c != sep) = true := by simp [hc]
      simp only [List.dropWhile_cons, hne, if_true]
      exact ih hmem

lemma decomp_of_mem (sep : Char) (cs : List Char) (h : sep ∈ cs) :
    cs = cs.takeWhile (fun c => c != sep) ++
        sep :: (cs.dropWhile (fun c => c != sep)).tail ∧
      sep ∉ cs.takeWhile (fun c => c != sep) := by
  constructor
  · conv_lhs => rw [← List.takeWhile_append_dropWhile (p := fun c => c != sep) (l := cs)]
    rw [dropWhile_eq_cons_of_mem sep cs h]
    simp
  · intro m
    have := List.mem_takeWhile_imp m
    simp at this

lemma count_decomp (sep : Char) (cs : List Char) (h : sep ∈ cs) :
    cs.count sep = ((cs.dropWhile (fun c => c != sep)).tail).count sep + 1 := by
  obtain ⟨hdec, hnot⟩ := decomp_of_mem sep cs h
  conv_lhs => rw [hdec]
  rw [List.count_append, List.count_cons_self]
  have h0 : (cs.takeWhile (fun c => c != sep)).count sep = 0 := List.count_eq_zero.mpr hnot
  omega

/-! ## The directive dispatch of `step`, branch by branch -/

lemma pySlice_mono (line : String) (m n : Nat) (hmn : m ≤ n) :
    pySlice (pySlice line n) m = pySlice line m := by
  unfold pySlice
  simp [List.take_take, Nat.min_eq_left hmn]

lemma step_setRegular (s : GenState) :
    step s "Regular:" = some { s with regularConsts := true } := rfl

lemma step_setNamed (s : GenState) :
    step s "Named:" = some { s with regularConsts := false } := rfl

lemma step_setNamePre (s : GenState) (line : String)
    (h : pySlice line 11 = "NamePrefix:") :
    step s line = some { s with namePre := pyDrop line 11 } := by
  have h1 : line ≠ "Regular:" := by rintro rfl; exact absurd h (by decide)
  have h2 : line ≠ "Named:" := by rintro rfl; exact absurd h (by decide)
  unfold step
  rw [if_neg h1, if_neg h2, if_pos h]

lemma step_setNamePost (s : GenState) (line : String)
    (h : pySlice line 12 = "NamePostfix:") :
    step s line = some { s with namePost := pyDrop line 12 } := by
  have h1 : line ≠ "Regular:" := by rintro rfl; exact absurd h (by decide)
  have h2 : line ≠ "Named:" := by rintro rfl; exact absurd h (by decide)
  have h3 : pySlice line 11 ≠ "NamePrefix:" := by
    have e : pySlice line 11 = pySlice "NamePostfix:" 11 := by
      rw [← pySlice_mono line 11 12 (by omega), h]
    rw [e]; decide
  unfold step
  rw [if_neg h1, if_neg h2, if_neg h3, if_pos h]

lemma step_setValuePre (s : GenState) (line : String)
    (h : pySlice line 12 = "ValuePrefix:") :
    step s line = some { s with valuePre := pyDrop line 12 } := by
  have h1 : line ≠ "Regular:" := by rintro rfl; exact absurd h (by decide)
  have h2 : line ≠ "Named:" := by rintro rfl; exact absurd h (by decide)
  have h3 : pySlice line 11 ≠ "NamePrefix:" := by
    have e : pySlice line 11 = pySlice "ValuePrefix:" 11 := by
      rw [← pySlice_mono line 11 12 (by omega), h]
    rw [e]; decide
  have h4 : pySlice line 12 ≠ "NamePostfix:" := by rw [h]; decide
  unfold step
  rw [if_neg h1, if_neg h2, if_neg h3, if_neg h4, if_pos h]

lemma step_setValuePost (s : GenState) (line : String)
    (h : pySlice line 13 = "ValuePostfix:") :
    step s line = some { s with valuePost := pyDrop line 13 } := by
  have h1 : line ≠ "Regular:" := by rintro rfl; exact absurd h (by decide)
  have h2 : line ≠ "Named:" := by rintro rfl; exact absurd h (by decide)
  have e11 : pySlice line 11 = pySlice "ValuePostfix:" 11 := by
    rw [← pySlice_mono line 11 13 (by omega), h]
  have e12 : pySlice line 12 = pySlice "ValuePostfix:" 12 := by
    rw [← pySlice_mono line 12 13 (by omega), h]
  have h3 : pySlice line 11 ≠ "NamePrefix:" := by rw [e11]; decide
  have h4 : pySlice line 12 ≠ "NamePostfix:" := by rw [e12]; decide
  have h5 : pySlice line 12 ≠ "ValuePrefix:" := by rw [e12]; decide
  unfold step
  rw [if_neg h1, if_neg h2, if_neg h3, if_neg h4, if_neg h5, if_pos h]

lemma step_setType (s : GenState) (line : String)
    (h : pySlice line 5 = "Type:")
    (h3 : pySlice line 11 ≠ "NamePrefix:") (h4 : pySlice line 12 ≠ "NamePostfix:")
    (h5 : pySlice line 12 ≠ "ValuePrefix:") (h6 : pySlice line 13 ≠ "ValuePostfix:") :
    step s line = some { s with typeStr := pyDrop line 5 } := by
  have h1 : line ≠ "Regular:" := by rintro rfl; exact absurd h (by decide)
  have h2 : line ≠ "Named:" := by rintro rfl; exact absurd h (by decide)
  unfold step
  rw [if_neg h1, if_neg h2, if_neg h3, if_neg h4, if_neg h5, if_neg h6, if_pos h]

lemma step_data (s : GenState) (line : String) (h : ¬ IsDirective line) :
    step s line =
      if s.regularConsts then some { s with output := s.output ++ fmt s line line }
      else namedEmit s line := by
  unfold IsDirective at h
  push_neg at h
  obtain ⟨h1, h2, h3, h4, h5, h6, h7⟩ := h
  unfold step
  rw [if_neg h1, if_neg h2, if_neg h3, if_neg h4, if_neg h5, if_neg h6, if_neg h7]

lemma step_regular_data (s : GenState) (line : String) (h : ¬ IsDirective line)
    (hmode : s.regularConsts = true) :
    step s line = some { s with output := s.output ++ fmt s line line } := by
  rw [step_data s line h, if_pos hmode]

lemma step_named_data (s : GenState) (line : String) (h : ¬ IsDirective line)
    (hmode : s.regularConsts = false) :
    step s line = namedEmit s line := by
  rw [step_data s line h]
  simp [hmode]

/-! ## Shape of the states `namedEmit` and `step` produce -/

lemma namedEmit_some (s s' : GenState) (line : String) (h : namedEmit s line = some s') :
    ∃ d : String, s' = { s with output := s.output ++ d } := by
  unfold namedEmit at h
  by_cases h0 : line = ""
  · rw [if_pos h0] at h; simp at h
  · rw [if_neg h0] at h
    rcases hm : (namedParts line)[1]? with _ | v <;> rw [hm] at h
    · simp at h
    · exact ⟨_, (Option.some.inj h).symm⟩

lemma step_directive_output (s s' : GenState) (line : String)
    (hd : IsDirective line) (h : step s line = some s') :
    s'.output = s.output := by
  rcases hd with h1 | h2 | h3 | h4 | h5 | h6 | h7
  · subst h1; rw [step_setRegular] at h; cases h; rfl
  · subst h2; rw [step_setNamed] at h; cases h; rfl
  · rw [step_setNamePre s line h3] at h; cases h; rfl
  · rw [step_setNamePost s line h4] at h; cases h; rfl
  · rw [step_setValuePre s line h5] at h; cases h; rfl
  · rw [step_setValuePost s line h6] at h; cases h; rfl
  · by_cases h3 : pySlice line 11 = "NamePrefix:"
    · rw [step_setNamePre s line h3] at h; cases h; rfl
    · by_cases h4 : pySlice line 12 = "NamePostfix:"
      · rw [step_setNamePost s line h4] at h; cases h; rfl
      · by_cases h5 : pySlice line 12 = "ValuePrefix:"
        · rw [step_setValuePre s line h5] at h; cases h; rfl
        · by_cases h6 : pySlice line 13 = "ValuePostfix:"
          · rw [step_setValuePost s line h6] at h; cases h; rfl
          · rw [step_setType s line h7 h3 h4 h5 h6] at h; cases h; rfl

lemma step_data_output (s s' : GenState) (line : String)
    (hd : ¬ IsDirective line) (h : step s line = some s') :
    ∃ d : String, s'.output = s.output ++ d := by
  rw [step_data s line hd] at h
  split_ifs at h
  · cases h; exact ⟨_, rfl⟩
  · obtain ⟨d, hd'⟩ := namedEmit_some s s' line h
    exact ⟨d, by rw [hd']⟩

/-! ## The Named-mode split, case by case -/

lemma mem_of_getLast (cs : List Char) (c : Char) (h : cs.getLast? = some c) : c ∈ cs :=
  List.mem_of_mem_getLast? (by rw [h]; exact rfl)

lemma namedParts_trailing (line : String) (h : line.toList.getLast? = some ',') :
    namedParts line = [line.toList.takeWhile (fun c => c != ','), [',']] := by
  unfold namedParts
  rw [if_pos h, splitChars_headD]

lemma namedParts_one_comma (line : String) (h1 : line.toList.count ',' = 1)
    (h2 : line.toList.getLast? ≠ some ',') :
    namedParts line =
      [line.toList.takeWhile (fun c => c != ','),
        (line.toList.dropWhile (fun c => c != ',')).tail] := by
  have hmem : ',' ∈ line.toList := List.count_pos_iff.mp (by omega)
  obtain ⟨hdec, hnotA⟩ := decomp_of_mem ',' line.toList hmem
  have hcR : ((line.toList.dropWhile (fun c => c != ',')).tail).count ',' = 0 := by
    have := count_decomp ',' line.toList hmem
    omega
  have hnotR : ',' ∉ (line.toList.dropWhile (fun c => c != ',')).tail :=
    List.count_eq_zero.mp hcR
  unfold namedParts
  rw [if_neg h2]
  conv_lhs => rw [hdec]
  rw [splitChars_append ',' _ _ hnotA, splitChars_of_not_mem ',' _ hnotR]

lemma namedParts_multi_comma (line : String) (h1 : 2 ≤ line.toList.count ',')
    (h2 : line.toList.getLast? ≠ some ',') :
    ∃ rest : List (List Char),
      namedParts line =
        line.toList.takeWhile (fun c => c != ',') ::
          ((line.toList.dropWhile (fun c => c != ',')).tail).takeWhile (fun c => c != ',') ::
            rest := by
  have hmem : ',' ∈ line.toList := List.count_pos_iff.mp (by omega)
  obtain ⟨hdec, hnotA⟩ := decomp_of_mem ',' line.toList hmem
  have hcR : 1 ≤ ((line.toList.dropWhile (fun c => c != ',')).tail).count ',' := by
    have := count_decomp ',' line.toList hmem
    omega
  have hmemR : ',' ∈ (line.toList.dropWhile (fun c => c != ',')).tail :=
    List.count_pos_iff.mp (by omega)
  rcases hsR : splitChars ',' ((line.toList.dropWhile (fun c => c != ',')).tail)
    with _ | ⟨q, qs⟩
  · exact absurd hsR (splitChars_ne_nil ',' _)
  · have hq : q = ((line.toList.dropWhile (fun c => c != ',')).tail).takeWhile
        (fun c => c != ',') := by
      have hh := splitChars_headD ',' ((line.toList.dropWhile (fun c => c != ',')).tail)
      rw [hsR] at hh
      simpa using hh
    refine ⟨qs, ?_⟩
    unfold namedParts
    rw [if_neg h2]
    conv_lhs => rw [hdec]
    rw [splitChars_append ',' _ _ hnotA, hsR, hq]

lemma namedEmit_trailing (s : GenState) (line : String)
    (h : line.toList.getLast? = some ',') :
    namedEmit s line = some { s with output := s.output ++ fmt s (beforeComma line) "," } := by
  have hne : line ≠ "" := by rintro rfl; exact absurd h (by decide)
  unfold namedEmit
  rw [if_neg hne, namedParts_trailing line h]
  rfl

lemma namedEmit_one_comma (s : GenState) (line : String)
    (h1 : line.toList.count ',' = 1) (h2 : line.toList.getLast? ≠ some ',') :
    namedEmit s line =
      some { s with output := s.output ++ fmt s (beforeComma line) (afterComma line) } := by
  have hmem : ',' ∈ line.toList := List.count_pos_iff.mp (by omega)
  have hne : line ≠ "" := by rintro rfl; simp at hmem
  unfold namedEmit
  rw [if_neg hne, namedParts_one_comma line h1 h2]
  rfl

lemma namedEmit_multi_comma (s : GenState) (line : String)
    (h1 : 2 ≤ line.toList.count ',') (h2 : line.toList.getLast? ≠ some ',') :
    namedEmit s line =
      some { s with output := s.output ++ fmt s (beforeComma line) (betweenCommas line) } := by
  have hmem : ',' ∈ line.toList := List.count_pos_iff.mp (by omega)
  have hne : line ≠ "" := by rintro rfl; simp at hmem
  obtain ⟨rest, hp⟩ := namedParts_multi_comma line h1 h2
  unfold namedEmit
  rw [if_neg hne, hp]
  simp [beforeComma, betweenCommas]

lemma namedEmit_no_comma (s : GenState) (line : String) (h : ',' ∉ line.toList) :
    namedEmit s line = none := by
  by_cases hne : line = ""
  · subst hne; rfl
  · have h2 : line.toList.getLast? ≠ some ',' := fun e => h (mem_of_getLast _ _ e)
    unfold namedEmit
    rw [if_neg hne]
    unfold namedParts
    rw [if_neg h2, splitChars_of_not_mem ',' _ h]
    rfl

/-! ## `step` preserves the mode off mode lines, and is total off Named data -/

lemma step_directive_isSome (s : GenState) (line : String) (hd : IsDirective line) :
    ∃ s', step s line = some s' := by
  rcases hd with h1 | h2 | h3 | h4 | h5 | h6 | h7
  · exact ⟨_, by rw [h1, step_setRegular]⟩
  · exact ⟨_, by rw [h2, step_setNamed]⟩
  · exact ⟨_, step_setNamePre s line h3⟩
  · exact ⟨_, step_setNamePost s line h4⟩
  · exact ⟨_, step_setValuePre s line h5⟩
  · exact ⟨_, step_setValuePost s line h6⟩
  · by_cases h3 : pySlice line 11 = "NamePrefix:"
    · exact ⟨_, step_setNamePre s line h3⟩
    · by_cases h4 : pySlice line 12 = "NamePostfix:"
      · exact ⟨_, step_setNamePost s line h4⟩
      · by_cases h5 : pySlice line 12 = "ValuePrefix:"
        · exact ⟨_, step_setValuePre s line h5⟩
        · by_cases h6 : pySlice line 13 = "ValuePostfix:"
          · exact ⟨_, step_setValuePost s line h6⟩
          · exact ⟨_, step_setType s line h7 h3 h4 h5 h6⟩

lemma step_mode (s s' : GenState) (line : String)
    (h1 : line ≠ "Regular:") (h2 : line ≠ "Named:") (h : step s line = some s') :
    s'.regularConsts = s.regularConsts := by
  unfold step at h
  rw [if_neg h1, if_neg h2] at h
  split_ifs at h
  all_goals first
  | (cases h; rfl)
  | (obtain ⟨d, hd⟩ := namedEmit_some s s' line h; subst hd; rfl)

lemma step_none_iff (s : GenState) (line : String) :
    step s line = none ↔
      ¬ IsDirective line ∧ s.regularConsts = false ∧ ',' ∉ line.toList := by
  constructor
  · intro h
    by_cases hd : IsDirective line
    · obtain ⟨s', hs⟩ := step_directive_isSome s line hd
      rw [hs] at h
      simp at h
    · rw [step_data s line hd] at h
      by_cases hm : s.regularConsts = true
      · rw [if_pos hm] at h
        simp at h
      · refine ⟨hd, by simpa using hm, ?_⟩
        rw [if_neg hm] at h
        intro hmem
        by_cases ht : line.toList.getLast? = some ','
        · rw [namedEmit_trailing s line ht] at h; simp at h
        · have hc : 0 < line.toList.count ',' := List.count_pos_iff.mpr hmem
          rcases Nat.lt_or_ge (line.toList.count ',') 2 with hlt | hge
          · have h1 : line.toList.count ',' = 1 := by omega
            rw [namedEmit_one_comma s line h1 ht] at h; simp at h
          · rw [namedEmit_multi_comma s line hge ht] at h; simp at h
  · rintro ⟨hd, hm, hmem⟩
    rw [step_named_data s line hd hm]
    exact namedEmit_no_comma s line hmem

/-! ## The main loop -/

lemma processLines_cons (s : GenState) (l : String) (ls : List String) :
    processLines s (l :: ls) =
      match step s l with
      | some s₂ => processLines s₂ ls
      | none => none := rfl

lemma processLines_cons_some (s s₁ : GenState) (l : String) (ls : List String)
    (h : step s l = some s₁) :
    processLines s (l :: ls) = processLines s₁ ls := by
  rw [processLines_cons, h]

lemma processLines_cons_none (s : GenState) (l : String) (ls : List String)
    (h : step s l = none) :
    processLines s (l :: ls) = none := by
  rw [processLines_cons, h]

lemma processLines_none_iff (ls : List String) (s₀ : GenState) :
    processLines s₀ ls = none ↔
      ∃ pre l post s, ls = pre ++ l :: post ∧
        processLines s₀ pre = some s ∧ step s l = none := by
  induction ls generalizing s₀ with
  | nil =>
    constructor
    · intro h; simp [processLines] at h
    · rintro ⟨pre, l, post, s, hls, -, -⟩
      exact absurd hls (by simp)
  | cons l₀ ls ih =>
    rcases hstep : step s₀ l₀ with _ | s₁
    · constructor
      · intro _
        exact ⟨[], l₀, ls, s₀, rfl, rfl, hstep⟩
      · intro _
        exact processLines_cons_none s₀ l₀ ls hstep
    · rw [processLines_cons_some s₀ s₁ l₀ ls hstep, ih s₁]
      constructor
      · rintro ⟨pre, l, post, s, hls, hpre, hst⟩
        exact ⟨l₀ :: pre, l, post, s, by rw [hls]; rfl,
          by rw [processLines_cons_some s₀ s₁ l₀ pre hstep]; exact hpre, hst⟩
      · rintro ⟨pre, l, post, s, hls, hpre, hst⟩
        cases pre with
        | nil =>
          simp [processLines] at hpre
          subst hpre
          obtain ⟨e1, -⟩ := List.cons.inj hls
          subst e1
          rw [hstep] at hst
          cases hst
        | cons p pre =>
          obtain ⟨e1, e2⟩ := List.cons.inj hls
          subst e1
          rw [processLines_cons_some s₀ s₁ l₀ pre hstep] at hpre
          exact ⟨pre, l, post, s, e2, hpre, hst⟩

lemma processLines_mode (ls : List String) (s s' : GenState)
    (hno : ∀ l ∈ ls, l ≠ "Regular:" ∧ l ≠ "Named:")
    (h : processLines s ls = some s') :
    s'.regularConsts = s.regularConsts := by
  induction ls generalizing s with
  | nil =>
    simp [processLines] at h
    subst h
    rfl
  | cons l₀ ls ih =>
    rcases hstep : step s l₀ with _ | s₁
    · rw [processLines_cons_none s l₀ ls hstep] at h
      cases h
    · rw [processLines_cons_some s s₁ l₀ ls hstep] at h
      obtain ⟨h1, h2⟩ := hno l₀ (List.mem_cons_self l₀ ls)
      have e1 := step_mode s s₁ l₀ h1 h2 hstep
      have e2 := ih s₁ (fun l hl => hno l (List.mem_cons_of_mem l₀ hl)) h
      rw [e2, e1]

lemma processLines_output (ls : List String) (s s' : GenState)
    (h : processLines s ls = some s') :
    ∃ decls : List String,
      s'.output = s.output ++ joinAll decls ∧ decls.length = dataCount ls := by
  induction ls generalizing s with
  | nil =>
    simp [processLines] at h
    subst h
    exact ⟨[], by rw [joinAll]; rw [String.append_empty], by simp [dataCount]⟩
  | cons l₀ ls ih =>
    rcases hstep : step s l₀ with _ | s₁
    · rw [processLines_cons_none s l₀ ls hstep] at h
      cases h
    · rw [processLines_cons_some s s₁ l₀ ls hstep] at h
      obtain ⟨decls, hout, hlen⟩ := ih s₁ h
      by_cases hd : IsDirective l₀
      · have e := step_directive_output s s₁ l₀ hd hstep
        refine ⟨decls, by rw [hout, e], ?_⟩
        simp [dataCount, List.countP_cons, hd] at hlen ⊢
        exact hlen
      · obtain ⟨d, e⟩ := step_data_output s s₁ l₀ hd hstep
        refine ⟨d :: decls, ?_, ?_⟩
        · rw [hout, e, joinAll, String.append_assoc]
        · simp [dataCount, List.countP_cons, hd] at hlen ⊢
          exact hlen

/-! ## The claims -/

/-- C1, as stated, is false: in Named mode the value is Python's
`line.split(',')[1]`, the text between the first and second commas, not
the entire text after the first comma.  On the line `A,B,C` with empty
affixes and type `i32` the code emits `pub const A: i32 = B;`, while the
claim predicts initializer `B,C`. -/
theorem C1_counterexample :
    beforeComma "A,B,C" = "A" ∧ afterComma "A,B,C" = "B,C" ∧
    step (GenState.mk false "" "" "" "" "i32" "") "A,B,C" =
      some (GenState.mk false "" "" "" "" "i32" "pub const A: i32 = B;\n") ∧
    "pub const A: i32 = B;\n" ≠
      "pub const " ++ "A" ++ ": " ++ "i32" ++ " = " ++ "B,C" ++ ";\n" := by
  refine ⟨by decide, by decide, by decide, by decide⟩

/-- C1 (amended): for every data line processed in Named mode that
contains exactly one comma and does not end with a comma, the emitted
constant's name is the text before the comma and its value is the text
after the comma, so that joining name and value with a comma reproduces
the original line. -/
theorem C1_theorem (s : GenState) (line : String)
    (hdir : ¬ IsDirective line) (hmode : s.regularConsts = false)
    (hcount : line.toList.count ',' = 1)
    (hlast : line.toList.getLast? ≠ some ',') :
    step s line =
      some { s with output := s.output ++ fmt s (beforeComma line) (afterComma line) } ∧
    beforeComma line ++ "," ++ afterComma line = line := by
  constructor
  · rw [step_named_data s line hdir hmode]
    exact namedEmit_one_comma s line hcount hlast
  · have hmem : ',' ∈ line.toList := List.count_pos_iff.mp (by omega)
    obtain ⟨hdec, -⟩ := decomp_of_mem ',' line.toList hmem
    have hl : (line.toList.takeWhile (fun c => c != ',') ++ [',']) ++
        (line.toList.dropWhile (fun c => c != ',')).tail =
        line.toList.takeWhile (fun c => c != ',') ++
          ',' :: (line.toList.dropWhile (fun c => c != ',')).tail := by
      simp
    calc beforeComma line ++ "," ++ afterComma line
        = String.mk ((line.toList.takeWhile (fun c => c != ',') ++ [',']) ++
            (line.toList.dropWhile (fun c => c != ',')).tail) := rfl
      _ = String.mk (line.toList.takeWhile (fun c => c != ',') ++
            ',' :: (line.toList.dropWhile (fun c => c != ',')).tail) :=
          congrArg String.mk hl
      _ = String.mk line.toList := (congrArg String.mk hdec).symm
      _ = line := rfl

/-- Witness for C1: the line `BAZ,42` with empty affixes and type `i32`
emits `pub const BAZ: i32 = 42;` and rejoins to the original line. -/
theorem C1_witness :
    step (GenState.mk false "" "" "" "" "i32" "") "BAZ,42" =
      some (GenState.mk false "" "" "" "" "i32" "pub const BAZ: i32 = 42;\n") ∧
    beforeComma "BAZ,42" ++ "," ++ afterComma "BAZ,42" = "BAZ,42" := by
  obtain ⟨h1, h2⟩ := C1_theorem (GenState.mk false "" "" "" "" "i32" "") "BAZ,42"
    (by decide) rfl (by decide) (by decide)
  refine ⟨?_, h2⟩
  rw [h1]
  decide

/-- C2: every data line processed in Regular mode appends exactly one
declaration, with identifier affixes around the line, the declared type
verbatim, and value affixes around the same line. -/
theorem C2_theorem (s : GenState) (line : String)
    (hdir : ¬ IsDirective line) (hmode : s.regularConsts = true) :
    step s line = some { s with output := s.output ++ fmt s line line } :=
  step_regular_data s line hdir hmode

/-- Witness for C2 at the data line `FOO` in the initial state. -/
theorem C2_witness :
    step initState "FOO" =
      some { initState with output := initState.output ++ fmt initState "FOO" "FOO" } :=
  C2_theorem initState "FOO" (by decide) rfl

/-- C3: the generator fails exactly when some data line reached in Named
mode contains no comma; no other input-content condition fails. -/
theorem C3_theorem (raw : List String) :
    run raw = none ↔
      ∃ pre l post s, filterLines raw = pre ++ l :: post ∧
        processLines initState pre = some s ∧
        s.regularConsts = false ∧ ¬ IsDirective l ∧ ',' ∉ l.toList := by
  unfold run
  rw [Option.map_eq_none', processLines_none_iff]
  constructor
  · rintro ⟨pre, l, post, s, h1, h2, h3⟩
    obtain ⟨hd, hm, hmem⟩ := (step_none_iff s l).mp h3
    exact ⟨pre, l, post, s, h1, h2, hm, hd, hmem⟩
  · rintro ⟨pre, l, post, s, h1, h2, hm, hd, hmem⟩
    exact ⟨pre, l, post, s, h1, h2, (step_none_iff s l).mpr ⟨hd, hm, hmem⟩⟩

/-- Witness for C3: a comma-less Named-mode data line aborts the run. -/
theorem C3_witness : run ["Named:\n", "ABC\n"] = none := by
  have h := C3_theorem ["Named:\n", "ABC\n"]
  exact h.mpr
    ⟨["Named:"], "ABC", [],
      GenState.mk false "" "" "" "" ""
        "#![allow(dead_code)]\n#![allow(non_upper_case_globals)]\n",
      by decide, by decide, rfl, by decide, by decide⟩

/-- C4: a Named-mode data line ending in a comma emits the text before
the first comma as the name and the literal single character `,` as the
value. -/
theorem C4_theorem (s : GenState) (line : String)
    (hdir : ¬ IsDirective line) (hmode : s.regularConsts = false)
    (hlast : line.toList.getLast? = some ',') :
    step s line =
      some { s with output := s.output ++ fmt s (beforeComma line) "," } := by
  rw [step_named_data s line hdir hmode]
  exact namedEmit_trailing s line hlast

/-- Witness for C4: `QUX,` with empty affixes and type `i32` yields
`pub const QUX: i32 = ,;`. -/
theorem C4_witness :
    step (GenState.mk false "" "" "" "" "i32" "") "QUX," =
      some (GenState.mk false "" "" "" "" "i32" "pub const QUX: i32 = ,;\n") := by
  have h := C4_theorem (GenState.mk false "" "" "" "" "i32" "") "QUX,"
    (by decide) rfl (by decide)
  rw [h]
  decide

/-- C5: every successful output is the two fixed header lines followed by
one declaration per data line; on the §6 example input the output is the
header followed by the `FOO`, `BAR`, `BAZ`, `QUX` declarations in that
order. -/
theorem C5_theorem :
    (∀ raw out, run raw = some out →
      ∃ decls : List String, out = header ++ joinAll decls ∧
        decls.length = dataCount (filterLines raw)) ∧
    run exampleRaw = some (header ++ joinAll
      ["pub const FOO:  = FOO;\n", "pub const BAR:  = BAR;\n",
       "pub const PFX_BAZ: u32 = 42;\n", "pub const PFX_QUX: u32 = ,;\n"]) := by
  constructor
  · intro raw out h
    unfold run at h
    rcases hp : processLines initState (filterLines raw) with _ | s'
    · rw [hp] at h; simp at h
    · rw [hp] at h
      simp only [Option.map_some', Option.some.injEq] at h
      obtain ⟨decls, h1, h2⟩ := processLines_output (filterLines raw) initState s' hp
      exact ⟨decls, by rw [← h, h1]; rfl, h2⟩
  · decide

/-- Witness for C5: the structure theorem applied to the §6 example. -/
theorem C5_witness :
    ∃ decls : List String,
      (header ++ joinAll
        ["pub const FOO:  = FOO;\n", "pub const BAR:  = BAR;\n",
         "pub const PFX_BAZ: u32 = 42;\n", "pub const PFX_QUX: u32 = ,;\n"]) =
        header ++ joinAll decls ∧
      decls.length = dataCount (filterLines exampleRaw) :=
  C5_theorem.1 exampleRaw _ C5_theorem.2

/-- C6: the main loop's dispatch agrees, on every state and line, with
the spec's priority-ordered classification; in particular a would-be
data line starting with a directive keyword, such as `Type:u32,5`, is
interpreted as a directive. -/
theorem C6_theorem :
    (∀ s line, step s line = applyClass s (classifySpec line)) ∧
    classifySpec "Type:u32,5" = LineClass.setType "u32,5" := by
  constructor
  · intro s line
    unfold step classifySpec applyClass
    split_ifs <;> rfl
  · decide

/-- C7: all four affixes and the type start empty; each affix/type
directive sets exactly its own field to the remainder of the line after
the keyword and leaves every other field (including the mode and the
output) unchanged; a set value persists across subsequent data lines,
as on `NamePrefix:PFX_` followed by data lines `A` and `B`. -/
theorem C7_theorem :
    (initState.namePre = "" ∧ initState.namePost = "" ∧ initState.valuePre = "" ∧
      initState.valuePost = "" ∧ initState.typeStr = "") ∧
    (∀ s line, pySlice line 11 = "NamePrefix:" →
      step s line = some { s with namePre := pyDrop line 11 }) ∧
    (∀ s line, pySlice line 12 = "NamePostfix:" →
      step s line = some { s with namePost := pyDrop line 12 }) ∧
    (∀ s line, pySlice line 12 = "ValuePrefix:" →
      step s line = some { s with valuePre := pyDrop line 12 }) ∧
    (∀ s line, pySlice line 13 = "ValuePostfix:" →
      step s line = some { s with valuePost := pyDrop line 13 }) ∧
    (∀ s line, pySlice line 5 = "Type:" →
      step s line = some { s with typeStr := pyDrop line 5 }) ∧
    processLines initState ["NamePrefix:PFX_", "A", "B"] =
      some (GenState.mk true "PFX_" "" "" "" ""
        ("#![allow(dead_code)]\n#![allow(non_upper_case_globals)]\n" ++
          "pub const PFX_A:  = A;\n" ++ "pub const PFX_B:  = B;\n")) := by
  refine ⟨⟨rfl, rfl, rfl, rfl, rfl⟩, step_setNamePre, step_setNamePost,
    step_setValuePre, step_setValuePost, ?_, by decide⟩
  intro s line h
  have h3 : pySlice line 11 ≠ "NamePrefix:" := by
    intro e
    have e5 := pySlice_mono line 5 11 (by omega)
    rw [e, h] at e5
    exact absurd e5 (by decide)
  have h4 : pySlice line 12 ≠ "NamePostfix:" := by
    intro e
    have e5 := pySlice_mono line 5 12 (by omega)
    rw [e, h] at e5
    exact absurd e5 (by decide)
  have h5 : pySlice line 12 ≠ "ValuePrefix:" := by
    intro e
    have e5 := pySlice_mono line 5 12 (by omega)
    rw [e, h] at e5
    exact absurd e5 (by decide)
  have h6 : pySlice line 13 ≠ "ValuePostfix:" := by
    intro e
    have e5 := pySlice_mono line 5 13 (by omega)
    rw [e, h] at e5
    exact absurd e5 (by decide)
  exact step_setType s line h h3 h4 h5 h6

/-- Witness for C7: `NamePrefix:PFX_` sets the name prefix. -/
theorem C7_witness :
    step initState "NamePrefix:PFX_" =
      some { initState with namePre := pyDrop "NamePrefix:PFX_" 11 } :=
  C7_theorem.2.1 initState "NamePrefix:PFX_" (by decide)

/-- C8: raw input lines that are exactly `"\n"` are dropped before
processing, so the whole run (mode, affixes, type and output) is
unchanged by their presence; a line of other whitespace, such as
`" \n"`, is kept (as the data line `" "`). -/
theorem C8_theorem :
    (∀ pre post, processLines initState (filterLines (pre ++ "\n" :: post)) =
      processLines initState (filterLines (pre ++ post))) ∧
    filterLines [" \n"] = [" "] := by
  constructor
  · intro pre post
    have e : filterLines (pre ++ "\n" :: post) = filterLines (pre ++ post) := by
      unfold filterLines
      simp
    rw [e]
  · decide

/-- C9: the initial mode is Regular, and after any prefix of lines
containing no mode directive the mode is still Regular, so any data line
there is emitted with name and value both equal to the line. -/
theorem C9_theorem :
    initState.regularConsts = true ∧
    (∀ ls s', (∀ l ∈ ls, l ≠ "Regular:" ∧ l ≠ "Named:") →
      processLines initState ls = some s' →
      s'.regularConsts = true ∧
        ∀ line, ¬ IsDirective line →
          step s' line = some { s' with output := s'.output ++ fmt s' line line }) := by
  refine ⟨rfl, ?_⟩
  intro ls s' hno h
  have hm : s'.regularConsts = true := by
    rw [processLines_mode ls initState s' hno h]
    rfl
  exact ⟨hm, fun line hdir => step_regular_data s' line hdir hm⟩

/-- Witness for C9: the empty prefix, then the data line `FOO`. -/
theorem C9_witness :
    initState.regularConsts = true ∧
    step initState "FOO" =
      some { initState with output := initState.output ++ fmt initState "FOO" "FOO" } :=
  ⟨C9_theorem.1, (C9_theorem.2 [] initState (by simp) rfl).2 "FOO" (by decide)⟩

/-- C10: a Named-mode data line with two or more commas, not ending in a
comma, emits as its value only the text strictly between the first and
second commas; everything from the second comma on is discarded. -/
theorem C10_theorem (s : GenState) (line : String)
    (hdir : ¬ IsDirective line) (hmode : s.regularConsts = false)
    (hcount : 2 ≤ line.toList.count ',') (hlast : line.toList.getLast? ≠ some ',') :
    step s line =
      some { s with output := s.output ++ fmt s (beforeComma line) (betweenCommas line) } := by
  rw [step_named_data s line hdir hmode]
  exact namedEmit_multi_comma s line hcount hlast

/-- Witness for C10: `A,B,C` emits name `A` and value `B`. -/
theorem C10_witness :
    step (GenState.mk false "" "" "" "" "i32" "") "A,B,C" =
      some (GenState.mk false "" "" "" "" "i32" "pub const A: i32 = B;\n") := by
  have h := C10_theorem (GenState.mk false "" "" "" "" "i32" "") "A,B,C"
    (by decide) rfl (by decide) (by decide)
  rw [h]
  decide

end SwarmGen
